import Mathlib

/-!
Verification of the MADlib naive-Bayes SQL generator (bayes.py).

The source builds SQL queries; we embed the relational semantics of those
queries over Lean lists.  Tables become lists of rows, `GROUP BY` becomes
deduplication plus counting, joins become filters over cross products, and
SQL three-valued equality on possibly-NULL attribute values is modelled by
`sqlEq` over `Option Int`.  DOUBLE PRECISION arithmetic is idealized as real
arithmetic; the smoothing factor is carried as a rational so that the
row-selection conditions of the queries stay decidable.
-/

/-- A row of the training relation: a class label and the attributes array
(`trainingClassColumn`, `trainingAttrColumn`). -/
structure TrainingRecord where
  cls : Int
  attrs : List Int
deriving DecidableEq

/-- A row of the classify relation: a unique key and the attributes array
(`classifyKeyColumn`, `classifyAttrColumn`).  The source documents the key
column as a unique identifier. -/
structure ClassifyRecord where
  key : Int
  attrs : List Int
deriving DecidableEq

/-- SQL 1-based array subscript `attrs[i]`: yields NULL (`none`) out of
bounds, as PostgreSQL array indexing does. -/
def attrVal (attrs : List Int) (i : Nat) : Option Int :=
  attrs[i - 1]?

/-- SQL equality on possibly-NULL values: `NULL = x` is never true. -/
def sqlEq : Option Int → Option Int → Bool
  | some x, some y => x == y
  | _, _ => false

/-- A row of the class-priors relation built by `__get_class_priors_sql`:
columns (class, class_cnt, all_cnt). -/
structure ClassPriorRow where
  cls : Int
  class_cnt : Nat
  all_cnt : Nat
deriving DecidableEq

/-- The distinct classes occurring in the training data (the groups of
`GROUP BY class` in `__get_class_priors_sql`). -/
def classes (train : List TrainingRecord) : List Int :=
  (train.map TrainingRecord.cls).dedup

/-- `count(*)` for the group of class `c` in `__get_class_priors_sql`. -/
def classCnt (train : List TrainingRecord) (c : Int) : Nat :=
  train.countP fun r => r.cls == c

/-- Result of `__get_class_priors_sql`: one row per observed class with its
record count and, via `sum(count(*)) OVER ()`, the total record count. -/
def classPriors (train : List TrainingRecord) : List ClassPriorRow :=
  (classes train).map fun c => ⟨c, classCnt train c, train.length⟩

/-- Result of `__get_attr_values_sql`: the distinct (attr, value) pairs of
the cross join of `generate_series(1, numAttrs)` with the training relation
(`SELECT DISTINCT attr, trainingAttrColumn[attr]`). -/
def attrValues (train : List TrainingRecord) (numAttrs : Nat) : List (Nat × Option Int) :=
  ((List.range' 1 numAttrs).flatMap fun i =>
    train.map fun r => (i, attrVal r.attrs i)).dedup

/-- `count(DISTINCT trainingAttrColumn[attr])` for attribute `i`:
the number of distinct non-NULL values (SQL `count(DISTINCT ...)` ignores
NULLs). -/
def attrCard (train : List TrainingRecord) (i : Nat) : Nat :=
  ((train.filterMap fun r => attrVal r.attrs i).dedup).length

/-- Result of `__get_attr_counts_sql`: `GROUP BY attr` over the cross join
of `generate_series(1, numAttrs)` with the training relation.  When the
training relation is empty the cross join is empty and there are no groups;
otherwise every attr in 1..numAttrs forms a group. -/
def attrCounts (train : List TrainingRecord) (numAttrs : Nat) : List (Nat × Nat) :=
  if train.isEmpty then []
  else (List.range' 1 numAttrs).map fun i => (i, attrCard train i)

/-- Group size of the (class, attr, value) group in the `triple_counts`
subquery of `__get_feature_probs_sql`. -/
def tripleCnt (train : List TrainingRecord) (c : Int) (i : Nat) (a : Option Int) : Nat :=
  train.countP fun r => r.cls == c && attrVal r.attrs i == a

/-- The `triple_counts` subquery of `__get_feature_probs_sql`: one row per
distinct (class, attr, value) triple of the cross join of
`generate_series(1, numAttrs)` with the training relation, with `count(*)`
of the group. -/
def tripleCounts (train : List TrainingRecord) (numAttrs : Nat) :
    List (Int × Nat × Option Int × Nat) :=
  (((List.range' 1 numAttrs).flatMap fun i =>
      train.map fun r => (r.cls, i, attrVal r.attrs i)).dedup).map
    fun t => (t.1, t.2.1, t.2.2, tripleCnt train t.1 t.2.1 t.2.2)

/-- The `LEFT OUTER JOIN ... USING (class, attr, value)` of
`__get_feature_probs_sql` followed by `coalesce(cnt, 0)`: the count of the
matching `triple_counts` row, or 0 when no row matches (NULL values never
match under SQL join equality). -/
def lookupCnt (train : List TrainingRecord) (numAttrs : Nat)
    (c : Int) (i : Nat) (a : Option Int) : Nat :=
  match (tripleCounts train numAttrs).find?
      (fun t => t.1 == c && t.2.1 == i && sqlEq t.2.2.1 a) with
  | some t => t.2.2.2
  | none => 0

/-- A row of the feature-probabilities relation built by
`__get_feature_probs_sql`: columns (class, attr, value, cnt, attr_cnt). -/
structure FeatureProbRow where
  cls : Int
  attr : Nat
  value : Option Int
  cnt : Nat
  attr_cnt : Nat
deriving DecidableEq

/-- Result of `__get_feature_probs_sql`: the `required_triples` cross join
of class priors with distinct attribute values, left-outer-joined with
`triple_counts` (giving `coalesce(cnt, 0)`), inner-joined with the
attribute counts `USING (attr)`. -/
def featureProbs (train : List TrainingRecord) (numAttrs : Nat) : List FeatureProbRow :=
  (classPriors train).flatMap fun p =>
    (attrValues train numAttrs).flatMap fun ia =>
      ((attrCounts train numAttrs).filter fun ic => ic.1 == ia.1).map fun ic =>
        ⟨p.cls, ia.1, ia.2, lookupCnt train numAttrs p.cls ia.1 ia.2, ic.2⟩

/-- The smoothed feature probability computed inside the `log` of
`__get_keys_and_prob_values_sql`:
`(cnt + smoothingFactor) / (class_cnt + smoothingFactor * attr_cnt)`. -/
def smoothedProb (cnt clsCnt attrCnt : Nat) (s : ℚ) : ℚ :=
  ((cnt : ℚ) + s) / ((clsCnt : ℚ) + s * (attrCnt : ℚ))

/-- The feature-probability rows of `__get_keys_and_prob_values_sql` that
join with attribute position `i` of a classify record and class `c`: the
`WHERE` clause requires the class to match, the (attr, value) pair to match
under SQL equality, and the division-by-zero guard
`smoothingFactor > 0 OR featureProbs.cnt > 0`. -/
def innerRows (train : List TrainingRecord) (numAttrs : Nat) (s : ℚ)
    (rec : ClassifyRecord) (c : Int) (i : Nat) : List FeatureProbRow :=
  (featureProbs train numAttrs).filter fun fp =>
    fp.cls == c && fp.attr == i && sqlEq fp.value (attrVal rec.attrs i)
      && (decide (0 < s) || decide (0 < fp.cnt))

/-- All rows of the join in the first branch of
`__get_keys_and_prob_values_sql` that fall into the group of one classify
record and one class: the classify record is exploded into one row per
attribute position by `generate_series(1, numAttrs)`. -/
def matchedRows (train : List TrainingRecord) (numAttrs : Nat) (s : ℚ)
    (rec : ClassifyRecord) (c : Int) : List FeatureProbRow :=
  (List.range' 1 numAttrs).flatMap fun i => innerRows train numAttrs s rec c i

/-- The non-NULL log-probability of the first branch of
`__get_keys_and_prob_values_sql`:
`log(class_cnt / all_cnt) + sum(log((cnt + s) / (class_cnt + s * attr_cnt)))`,
with `log` being PostgreSQL's base-10 logarithm. -/
noncomputable def logProbVal (p : ClassPriorRow) (s : ℚ) (rows : List FeatureProbRow) : ℝ :=
  Real.logb 10 ((p.class_cnt : ℝ) / (p.all_cnt : ℝ))
    + (rows.map fun fp =>
        Real.logb 10 ((smoothedProb fp.cnt p.class_cnt fp.attr_cnt s : ℚ) : ℝ)).sum

/-- The row the first branch of `__get_keys_and_prob_values_sql` emits for
the group of one classify record and one class: no row at all when the
group is empty (`GROUP BY` emits no empty groups), a NULL log-probability
when `count(*) < numAttrs`, and the summed log-probability otherwise. -/
noncomputable def scoredRow (train : List TrainingRecord) (numAttrs : Nat) (s : ℚ)
    (rec : ClassifyRecord) (p : ClassPriorRow) : Option (Option ℝ) :=
  if (matchedRows train numAttrs s rec p.cls).isEmpty then none
  else some (if (matchedRows train numAttrs s rec p.cls).length < numAttrs then none
    else some (logProbVal p s (matchedRows train numAttrs s rec p.cls)))

/-- The distinct log-probability values `__get_keys_and_prob_values_sql`
holds for one (key, class) pair: the scored row of the first branch, if
any, and the unconditional NULL row of the second branch (the `UNION`
removes duplicates, so a NULL scored row collapses into the NULL row). -/
noncomputable def groupVals (train : List TrainingRecord) (numAttrs : Nat) (s : ℚ)
    (rec : ClassifyRecord) (p : ClassPriorRow) : List (Option ℝ) :=
  match scoredRow train numAttrs s rec p with
  | some (some v) => [some v, none]
  | _ => [none]

/-- Membership in the relation produced by `__get_keys_and_prob_values_sql`
(keys are assumed unique per classify record, as the source documents for
`classifyKeyColumn`): row (k, c, v) is present when some classify record
with key `k` and some class-priors row for class `c` put `v` among the
group's values. -/
def InKeysAndProbValues (train : List TrainingRecord) (numAttrs : Nat) (s : ℚ)
    (classify : List ClassifyRecord) (k c : Int) (v : Option ℝ) : Prop :=
  ∃ rec ∈ classify, rec.key = k ∧
    ∃ p ∈ classPriors train, p.cls = c ∧ v ∈ groupVals train numAttrs s rec p

/-- Maximum of a list of reals, `none` on the empty list (SQL `max` over a
group with no non-NULL values is NULL). -/
noncomputable def listMax : List ℝ → Option ℝ
  | [] => none
  | x :: xs =>
    match listMax xs with
    | none => some x
    | some m => some (max x m)

/-- SQL `max` over possibly-NULL values: NULLs are ignored. -/
noncomputable def nullMax (l : List (Option ℝ)) : Option ℝ :=
  listMax (l.filterMap id)

/-- `max(log_prob) ... GROUP BY key, class` in `create_bayes_probabilities`:
the null-ignoring maximum over the (key, class) group of the
keys-and-prob-values relation. -/
noncomputable def classMaxLogProb (train : List TrainingRecord) (numAttrs : Nat) (s : ℚ)
    (rec : ClassifyRecord) (p : ClassPriorRow) : Option ℝ :=
  nullMax (groupVals train numAttrs s rec p)

/-- `max(max(log_prob)) OVER (PARTITION BY key)` in
`create_bayes_probabilities`: the null-ignoring maximum over all classes of
the per-class maxima for one key. -/
noncomputable def keyMaxLogProb (train : List TrainingRecord) (numAttrs : Nat) (s : ℚ)
    (rec : ClassifyRecord) : Option ℝ :=
  listMax ((classPriors train).filterMap fun p =>
    classMaxLogProb train numAttrs s rec p)

/-- The unnormalized `nb_prob` of `create_bayes_probabilities`:
`CASE WHEN max(log_prob) - max(max(log_prob)) OVER (PARTITION BY key) < -300
THEN 0 ELSE pow(10, ...) END`.  When the per-class maximum is NULL both the
comparison and `pow` yield NULL. -/
noncomputable def nbProbRaw (train : List TrainingRecord) (numAttrs : Nat) (s : ℚ)
    (rec : ClassifyRecord) (p : ClassPriorRow) : Option ℝ :=
  match classMaxLogProb train numAttrs s rec p, keyMaxLogProb train numAttrs s rec with
  | some m, some M => some (if m - M < -300 then 0 else (10 : ℝ) ^ (m - M))
  | _, _ => none

/-- `sum(nb_prob) OVER (PARTITION BY key)` in `create_bayes_probabilities`:
NULL summands are ignored. -/
noncomputable def nbProbSum (train : List TrainingRecord) (numAttrs : Nat) (s : ℚ)
    (rec : ClassifyRecord) : ℝ :=
  (((classPriors train).filterMap fun p => nbProbRaw train numAttrs s rec p)).sum

/-- The normalized `nb_prob` column of `create_bayes_probabilities`:
`nb_prob / sum(nb_prob) OVER (PARTITION BY key)`. -/
noncomputable def nbProb (train : List TrainingRecord) (numAttrs : Nat) (s : ℚ)
    (rec : ClassifyRecord) (p : ClassPriorRow) : Option ℝ :=
  (nbProbRaw train numAttrs s rec p).map fun x => x / nbProbSum train numAttrs s rec

/-- The statistics datasets materialized by `create_prepared_data`: the
class-priors relation and the feature-probabilities relation.  The source
runs the two `CREATE` statements unconditionally; there is no emptiness
check and no error path. -/
def createPreparedData (train : List TrainingRecord) (numAttrs : Nat) :
    List ClassPriorRow × List FeatureProbRow :=
  (classPriors train, featureProbs train numAttrs)

/-- Modelled from the spec (section 4.3): the reference log-probability
formula, `log10(ClassPrior(c).count / totalCount)` plus the sum over
attribute indices of
`log10((FeatureCount(c,i,attr[i]) + s) / (ClassPrior(c).count + s * AttributeCardinality(i)))`. -/
noncomputable def specLogProb (train : List TrainingRecord) (numAttrs : Nat) (s : ℚ)
    (rec : ClassifyRecord) (c : Int) : ℝ :=
  Real.logb 10 ((classCnt train c : ℝ) / (train.length : ℝ))
    + ((List.range' 1 numAttrs).map fun i =>
        Real.logb 10
          ((smoothedProb (tripleCnt train c i (attrVal rec.attrs i))
              (classCnt train c) (attrCard train i) s : ℚ) : ℝ)).sum

/-! ### Generic list lemmas -/

theorem sqlEq_iff {u v : Option Int} : sqlEq u v = true ↔ ∃ x, u = some x ∧ v = some x := by
  cases u with
  | none => simp [sqlEq]
  | some x =>
    cases v with
    | none => simp [sqlEq]
    | some y =>
      simp only [sqlEq, beq_iff_eq, Option.some.injEq]
      constructor
      · intro h
        exact ⟨y, h, rfl⟩
      · rintro ⟨z, hz, hy⟩
        exact hz.trans hy.symm

theorem nb_length_flatMap {α β : Type _} (l : List α) (f : α → List β) :
    (l.flatMap f).length = (l.map fun x => (f x).length).sum := by
  induction l with
  | nil => rfl
  | cons x xs ih => simp [List.flatMap_cons, ih]

theorem nb_sum_flatMap_map {α β : Type _} (l : List α) (f : α → List β) (g : β → ℝ) :
    ((l.flatMap f).map g).sum = (l.map fun x => ((f x).map g).sum).sum := by
  induction l with
  | nil => rfl
  | cons x xs ih => simp [List.flatMap_cons, ih]

theorem nb_countP_flatMap {α β : Type _} (l : List α) (f : α → List β) (p : β → Bool) :
    (l.flatMap f).countP p = (l.map fun x => (f x).countP p).sum := by
  induction l with
  | nil => rfl
  | cons x xs ih => simp [List.flatMap_cons, List.countP_append, ih]

theorem nb_sum_ite_of_nodup {α β : Type _} [DecidableEq β] (l : List α) (f : α → β)
    (h : (l.map f).Nodup) (c : β) (A : ℕ) :
    (l.map fun x => if f x = c then A else 0).sum = if c ∈ l.map f then A else 0 := by
  induction l with
  | nil => simp
  | cons x xs ih =>
    simp only [List.map_cons, List.nodup_cons] at h
    simp only [List.map_cons, List.sum_cons, ih h.2, List.mem_cons]
    by_cases hx : f x = c
    · subst hx
      simp [h.1]
    · simp [hx, Ne.symm hx]

theorem nb_filter_eq_single {l : List ℕ} {i : ℕ} (h : l.Nodup) (hi : i ∈ l) :
    l.filter (fun j => j == i) = [i] := by
  induction l with
  | nil => cases hi
  | cons x xs ih =>
    simp only [List.nodup_cons] at h
    rcases List.mem_cons.1 hi with heq | hmem
    · subst heq
      have hnil : xs.filter (fun j => j == i) = [] := by
        rw [List.filter_eq_nil_iff]
        intro a ha
        simp only [beq_iff_eq]
        exact fun hax => h.1 (hax ▸ ha)
      simp [List.filter_cons, hnil]
    · have hxi : ¬(x == i) = true := by
        simp only [beq_iff_eq]
        exact fun hxe => h.1 (hxe ▸ hmem)
      simp only [List.filter_cons, hxi, if_neg, Bool.false_eq_true, ite_false]
      exact ih h.2 hmem

theorem nb_find_eq_some_of_unique {α : Type _} {l : List α} {p : α → Bool} {t : α}
    (ht : t ∈ l) (hp : p t = true) (huniq : ∀ u ∈ l, p u = true → u = t) :
    l.find? p = some t := by
  induction l with
  | nil => cases ht
  | cons x xs ih =>
    rcases List.mem_cons.1 ht with rfl | hmem
    · simp [List.find?_cons, hp]
    · by_cases hx : p x = true
      · have := huniq x (List.mem_cons_self x xs) hx
        subst this
        simp [List.find?_cons, hp]
      · simp only [List.find?_cons]
        rw [Bool.not_eq_true] at hx
        rw [hx]
        exact ih hmem fun u hu => huniq u (List.mem_cons_of_mem x hu)

theorem nb_sum_le_length {α : Type _} (l : List α) (g : α → ℕ)
    (h : ∀ x ∈ l, g x ≤ 1) : (l.map g).sum ≤ l.length := by
  induction l with
  | nil => simp
  | cons x xs ih =>
    simp only [List.map_cons, List.sum_cons, List.length_cons]
    have h1 := h x (List.mem_cons_self x xs)
    have h2 := ih fun y hy => h y (List.mem_cons_of_mem x hy)
    omega

theorem nb_all_eq_one {α : Type _} (l : List α) (g : α → ℕ)
    (hle : ∀ x ∈ l, g x ≤ 1) (hge : l.length ≤ (l.map g).sum) :
    ∀ x ∈ l, g x = 1 := by
  induction l with
  | nil => intro x hx; cases hx
  | cons x xs ih =>
    simp only [List.map_cons, List.sum_cons, List.length_cons] at hge
    have h1 := hle x (List.mem_cons_self x xs)
    have htail := nb_sum_le_length xs g fun y hy => hle y (List.mem_cons_of_mem x hy)
    intro y hy
    rcases List.mem_cons.1 hy with rfl | hmem
    · omega
    · exact ih (fun z hz => hle z (List.mem_cons_of_mem x hz)) (by omega) y hmem

theorem listMax_eq_none_iff {l : List ℝ} : listMax l = none ↔ l = [] := by
  cases l with
  | nil => simp [listMax]
  | cons x xs =>
    simp only [listMax]
    cases listMax xs <;> simp

theorem listMax_mem {l : List ℝ} {m : ℝ} (h : listMax l = some m) : m ∈ l := by
  induction l generalizing m with
  | nil => simp [listMax] at h
  | cons x xs ih =>
    simp only [listMax] at h
    cases hxs : listMax xs with
    | none =>
      rw [hxs] at h
      simp only [Option.some.injEq] at h
      exact h ▸ List.mem_cons_self x xs
    | some m0 =>
      rw [hxs] at h
      simp only [Option.some.injEq] at h
      rcases max_choice x m0 with hc | hc
      · rw [hc] at h
        exact h ▸ List.mem_cons_self x xs
      · rw [hc] at h
        exact List.mem_cons_of_mem x (ih (h ▸ hxs))

theorem le_listMax {l : List ℝ} {m : ℝ} (h : listMax l = some m) :
    ∀ x ∈ l, x ≤ m := by
  induction l generalizing m with
  | nil => intro x hx; cases hx
  | cons y ys ih =>
    simp only [listMax] at h
    intro x hx
    cases hys : listMax ys with
    | none =>
      rw [hys] at h
      simp only [Option.some.injEq] at h
      rw [listMax_eq_none_iff] at hys
      subst hys
      rcases List.mem_cons.1 hx with rfl | hmem
      · exact h.le
      · cases hmem
    | some m0 =>
      rw [hys] at h
      simp only [Option.some.injEq] at h
      rcases List.mem_cons.1 hx with rfl | hmem
      · exact h ▸ le_max_left x m0
      · exact le_trans (ih hys x hmem) (h ▸ le_max_right y m0)

/-! ### Lemmas about the statistics relations -/

theorem mem_classes {train : List TrainingRecord} {c : Int} :
    c ∈ classes train ↔ ∃ r ∈ train, r.cls = c := by
  simp [classes, List.mem_dedup, List.mem_map]

theorem classCnt_pos {train : List TrainingRecord} {c : Int} (h : c ∈ classes train) :
    0 < classCnt train c := by
  rcases mem_classes.1 h with ⟨r, hr, hc⟩
  rw [classCnt, List.countP_pos_iff]
  exact ⟨r, hr, by simp [hc]⟩

theorem mem_classPriors_eq {train : List TrainingRecord} {p : ClassPriorRow}
    (h : p ∈ classPriors train) :
    p.cls ∈ classes train ∧ p = ⟨p.cls, classCnt train p.cls, train.length⟩ := by
  rcases List.mem_map.1 h with ⟨c, hc, hp⟩
  cases hp
  exact ⟨hc, rfl⟩

theorem classPriors_mem {train : List TrainingRecord} {c : Int} (h : c ∈ classes train) :
    (⟨c, classCnt train c, train.length⟩ : ClassPriorRow) ∈ classPriors train :=
  List.mem_map.2 ⟨c, h, rfl⟩

theorem classPriors_unique {train : List TrainingRecord} {p q : ClassPriorRow}
    (hp : p ∈ classPriors train) (hq : q ∈ classPriors train) (h : p.cls = q.cls) :
    p = q := by
  rw [(mem_classPriors_eq hp).2, (mem_classPriors_eq hq).2, h]

theorem classPriors_map_cls (train : List TrainingRecord) :
    (classPriors train).map ClassPriorRow.cls = classes train := by
  rw [classPriors, List.map_map]
  exact List.map_id (classes train)

theorem mem_attrValues {train : List TrainingRecord} {numAttrs i : Nat} {a : Option Int} :
    (i, a) ∈ attrValues train numAttrs ↔
      i ∈ List.range' 1 numAttrs ∧ ∃ r ∈ train, attrVal r.attrs i = a := by
  simp only [attrValues, List.mem_dedup, List.mem_flatMap, List.mem_map, Prod.mk.injEq]
  constructor
  · rintro ⟨j, hj, r, hr, hji, hva⟩
    subst hji
    exact ⟨hj, r, hr, hva⟩
  · rintro ⟨hi, r, hr, hva⟩
    exact ⟨i, hi, r, hr, rfl, hva⟩

theorem mem_attrCounts {train : List TrainingRecord} {numAttrs : Nat} {ic : Nat × Nat}
    (h : ic ∈ attrCounts train numAttrs) :
    ic.2 = attrCard train ic.1 ∧ ic.1 ∈ List.range' 1 numAttrs := by
  rw [attrCounts] at h
  by_cases he : train.isEmpty
  · rw [if_pos he] at h
    cases h
  · rw [if_neg he] at h
    rcases List.mem_map.1 h with ⟨j, hj, hij⟩
    cases hij
    exact ⟨rfl, hj⟩

theorem attrCounts_filter {train : List TrainingRecord} {numAttrs i : Nat}
    (hne : train ≠ []) (hi : i ∈ List.range' 1 numAttrs) :
    (attrCounts train numAttrs).filter (fun ic => ic.1 == i)
      = [(i, attrCard train i)] := by
  have h0 : train.isEmpty = false := by
    cases train with
    | nil => exact absurd rfl hne
    | cons x xs => rfl
  rw [attrCounts, h0]
  simp only [Bool.false_eq_true, if_false]
  rw [List.filter_map]
  have hcomp : ((fun ic : Nat × Nat => ic.1 == i) ∘ fun j => (j, attrCard train j))
      = fun j => j == i := rfl
  rw [hcomp, nb_filter_eq_single (List.nodup_range' 1 numAttrs) hi]
  rfl

theorem lookupCnt_eq_tripleCnt {train : List TrainingRecord} {numAttrs : Nat}
    {c : Int} {i : Nat} {a : Int} (hi : i ∈ List.range' 1 numAttrs) :
    lookupCnt train numAttrs c i (some a) = tripleCnt train c i (some a) := by
  by_cases hex : ∃ r ∈ train, r.cls = c ∧ attrVal r.attrs i = some a
  · have hmem : (c, i, some a, tripleCnt train c i (some a)) ∈ tripleCounts train numAttrs := by
      rw [tripleCounts]
      refine List.mem_map.2 ⟨(c, i, some a), ?_, rfl⟩
      rw [List.mem_dedup]
      rcases hex with ⟨r, hr, hcls, hval⟩
      exact List.mem_flatMap.2 ⟨i, hi, List.mem_map.2 ⟨r, hr, by rw [hcls, hval]⟩⟩
    have hfind : (tripleCounts train numAttrs).find?
        (fun t => t.1 == c && t.2.1 == i && sqlEq t.2.2.1 (some a))
        = some (c, i, some a, tripleCnt train c i (some a)) := by
      apply nb_find_eq_some_of_unique hmem
      · simp [sqlEq]
      · intro u hu hpu
        rcases List.mem_map.1 hu with ⟨t, ht, hut⟩
        obtain ⟨tc, ti, ta⟩ := t
        cases hut
        simp only [Bool.and_eq_true, beq_iff_eq] at hpu
        obtain ⟨⟨h1, h2⟩, h3⟩ := hpu
        rcases sqlEq_iff.1 h3 with ⟨x, hx1, hx2⟩
        injection hx2 with hax
        subst hax
        subst h1
        subst h2
        rw [hx1]
    rw [lookupCnt, hfind]
  · have hfind : (tripleCounts train numAttrs).find?
        (fun t => t.1 == c && t.2.1 == i && sqlEq t.2.2.1 (some a)) = none := by
      rw [List.find?_eq_none]
      intro u hu hpu
      rcases List.mem_map.1 hu with ⟨t, ht, hut⟩
      obtain ⟨tc, ti, ta⟩ := t
      cases hut
      simp only [Bool.and_eq_true, beq_iff_eq] at hpu
      obtain ⟨⟨h1, h2⟩, h3⟩ := hpu
      rcases sqlEq_iff.1 h3 with ⟨x, hx1, hx2⟩
      injection hx2 with hax
      subst hax
      subst h1
      subst h2
      rw [List.mem_dedup] at ht
      rcases List.mem_flatMap.1 ht with ⟨j, hj, hjm⟩
      rcases List.mem_map.1 hjm with ⟨r, hr, hrt⟩
      injection hrt with hr1 hr2
      injection hr2 with hr2a hr2b
      exact hex ⟨r, hr, hr1, by rw [← hr2a, hr2b, hx1]⟩
    have hcnt : tripleCnt train c i (some a) = 0 := by
      rw [tripleCnt, List.countP_eq_zero]
      intro r hr hpr
      simp only [Bool.and_eq_true, beq_iff_eq] at hpr
      exact hex ⟨r, hr, hpr.1, hpr.2⟩
    rw [lookupCnt, hfind, hcnt]

theorem classes_nodup (train : List TrainingRecord) : (classes train).Nodup := by
  unfold classes
  exact List.nodup_dedup _

theorem attrValues_nodup (train : List TrainingRecord) (numAttrs : Nat) :
    (attrValues train numAttrs).Nodup := by
  unfold attrValues
  exact List.nodup_dedup _

theorem nb_sum_ite_of_nodup_id {α : Type _} [DecidableEq α] (l : List α)
    (h : l.Nodup) (t : α) (A : ℕ) :
    (l.map fun x => if x = t then A else 0).sum = if t ∈ l then A else 0 := by
  have hres := nb_sum_ite_of_nodup l id (by simpa using h) t A
  simpa using hres

theorem mem_featureProbs {train : List TrainingRecord} {numAttrs : Nat} {fp : FeatureProbRow} :
    fp ∈ featureProbs train numAttrs ↔
      fp.cls ∈ classes train ∧ (fp.attr, fp.value) ∈ attrValues train numAttrs ∧
        fp.cnt = lookupCnt train numAttrs fp.cls fp.attr fp.value ∧
        fp.attr_cnt = attrCard train fp.attr := by
  constructor
  · intro h
    rcases List.mem_flatMap.1 h with ⟨p, hp, h2⟩
    rcases List.mem_flatMap.1 h2 with ⟨ia, hia, h3⟩
    rcases List.mem_map.1 h3 with ⟨ic, hic, hfp⟩
    rcases List.mem_filter.1 hic with ⟨hic0, hic1⟩
    have hics := mem_attrCounts hic0
    have hia1 : ic.1 = ia.1 := by simpa using hic1
    cases hfp
    exact ⟨(mem_classPriors_eq hp).1, hia, rfl, by rw [hics.1, hia1]⟩
  · rintro ⟨hc, hav, hcnt, hacnt⟩
    have hne : train ≠ [] := by
      rcases mem_attrValues.1 hav with ⟨_, r, hr, _⟩
      intro hnil
      rw [hnil] at hr
      cases hr
    have hi : fp.attr ∈ List.range' 1 numAttrs := (mem_attrValues.1 hav).1
    apply List.mem_flatMap.2
    refine ⟨⟨fp.cls, classCnt train fp.cls, train.length⟩, classPriors_mem hc, ?_⟩
    apply List.mem_flatMap.2
    refine ⟨(fp.attr, fp.value), hav, ?_⟩
    apply List.mem_map.2
    refine ⟨(fp.attr, attrCard train fp.attr), ?_, ?_⟩
    · show (fp.attr, attrCard train fp.attr)
        ∈ (attrCounts train numAttrs).filter fun ic => ic.1 == fp.attr
      rw [attrCounts_filter hne hi]
      exact List.mem_singleton.2 rfl
    · show (⟨fp.cls, fp.attr, fp.value,
          lookupCnt train numAttrs fp.cls fp.attr fp.value,
          attrCard train fp.attr⟩ : FeatureProbRow) = fp
      rw [← hcnt, ← hacnt]

theorem countP_featureProbs (train : List TrainingRecord) (numAttrs : Nat)
    (c : Int) (i : Nat) (a : Option Int) :
    (featureProbs train numAttrs).countP
        (fun fp => fp.cls == c && fp.attr == i && fp.value == a)
      = if c ∈ classes train ∧ (i, a) ∈ attrValues train numAttrs then 1 else 0 := by
  classical
  rw [featureProbs, nb_countP_flatMap]
  have hstep : ((classPriors train).map fun p =>
        ((attrValues train numAttrs).flatMap fun ia =>
          ((attrCounts train numAttrs).filter fun ic => ic.1 == ia.1).map fun ic =>
            (⟨p.cls, ia.1, ia.2, lookupCnt train numAttrs p.cls ia.1 ia.2, ic.2⟩
              : FeatureProbRow)).countP
          fun fp => fp.cls == c && fp.attr == i && fp.value == a)
      = (classPriors train).map fun p =>
          if p.cls = c
            then (if (i, a) ∈ attrValues train numAttrs
              then ((attrCounts train numAttrs).filter fun ic => ic.1 == i).length else 0)
            else 0 := by
    apply List.map_congr_left
    intro p hp
    rw [nb_countP_flatMap]
    have hstep2 : ((attrValues train numAttrs).map fun ia =>
          (((attrCounts train numAttrs).filter fun ic => ic.1 == ia.1).map fun ic =>
            (⟨p.cls, ia.1, ia.2, lookupCnt train numAttrs p.cls ia.1 ia.2, ic.2⟩
              : FeatureProbRow)).countP
            fun fp => fp.cls == c && fp.attr == i && fp.value == a)
        = (attrValues train numAttrs).map fun ia =>
            if ia = (i, a)
              then (if p.cls = c
                then ((attrCounts train numAttrs).filter fun ic => ic.1 == i).length else 0)
              else 0 := by
      apply List.map_congr_left
      intro ia hia
      by_cases hiaeq : ia = (i, a)
      · subst hiaeq
        by_cases hpc : p.cls = c
        · rw [if_pos rfl, if_pos hpc]
          rw [List.countP_eq_length.2, List.length_map]
          intro x hx
          rcases List.mem_map.1 hx with ⟨ic, hic, hxe⟩
          cases hxe
          simp [hpc]
        · rw [if_pos rfl, if_neg hpc]
          rw [List.countP_eq_zero]
          intro x hx
          rcases List.mem_map.1 hx with ⟨ic, hic, hxe⟩
          cases hxe
          simp [hpc]
      · rw [if_neg hiaeq]
        rw [List.countP_eq_zero]
        intro x hx
        rcases List.mem_map.1 hx with ⟨ic, hic, hxe⟩
        cases hxe
        simp only [Bool.and_eq_true, beq_iff_eq]
        rintro ⟨⟨h1, h2⟩, h3⟩
        exact hiaeq (by rw [← h2, ← h3])
    rw [hstep2, nb_sum_ite_of_nodup_id (attrValues train numAttrs)
      (attrValues_nodup train numAttrs) (i, a)]
    by_cases hpc : p.cls = c
    · simp [hpc]
    · simp [hpc]
  rw [hstep, nb_sum_ite_of_nodup
    (classPriors train) ClassPriorRow.cls
    (by rw [classPriors_map_cls]; exact classes_nodup train) c]
  rw [classPriors_map_cls]
  by_cases hc : c ∈ classes train
  · by_cases hav : (i, a) ∈ attrValues train numAttrs
    · have hne : train ≠ [] := by
        rcases mem_attrValues.1 hav with ⟨_, r, hr, _⟩
        intro hnil
        rw [hnil] at hr
        cases hr
      rw [if_pos hc, if_pos hav, if_pos ⟨hc, hav⟩,
        attrCounts_filter hne (mem_attrValues.1 hav).1]
      rfl
    · rw [if_pos hc, if_neg hav, if_neg (by rintro ⟨h1, h2⟩; exact hav h2)]
  · rw [if_neg hc, if_neg (by rintro ⟨h1, h2⟩; exact hc h1)]

/-! ### Lemmas about the scoring join -/

theorem sqlEq_none (u : Option Int) : sqlEq u none = false := by
  cases u <;> rfl

theorem mem_innerRows {train : List TrainingRecord} {numAttrs : Nat} {s : ℚ}
    {rec : ClassifyRecord} {c : Int} {i : Nat} {fp : FeatureProbRow} :
    fp ∈ innerRows train numAttrs s rec c i ↔
      fp ∈ featureProbs train numAttrs ∧ fp.cls = c ∧ fp.attr = i ∧
        sqlEq fp.value (attrVal rec.attrs i) = true ∧ (0 < s ∨ 0 < fp.cnt) := by
  rw [innerRows, List.mem_filter]
  simp only [Bool.and_eq_true, beq_iff_eq, Bool.or_eq_true, decide_eq_true_eq]
  constructor
  · rintro ⟨hmem, ⟨⟨h1, h2⟩, h3⟩, h4⟩
    exact ⟨hmem, h1, h2, h3, h4⟩
  · rintro ⟨hmem, h1, h2, h3, h4⟩
    exact ⟨hmem, ⟨⟨h1, h2⟩, h3⟩, h4⟩

theorem mem_matchedRows {train : List TrainingRecord} {numAttrs : Nat} {s : ℚ}
    {rec : ClassifyRecord} {c : Int} {fp : FeatureProbRow} :
    fp ∈ matchedRows train numAttrs s rec c ↔
      fp ∈ featureProbs train numAttrs ∧ fp.cls = c ∧
        fp.attr ∈ List.range' 1 numAttrs ∧
        sqlEq fp.value (attrVal rec.attrs fp.attr) = true ∧ (0 < s ∨ 0 < fp.cnt) := by
  rw [matchedRows, List.mem_flatMap]
  constructor
  · rintro ⟨i, hi, hfp⟩
    rcases mem_innerRows.1 hfp with ⟨hmem, h1, h2, h3, h4⟩
    subst h2
    exact ⟨hmem, h1, hi, h3, h4⟩
  · rintro ⟨hmem, h1, hi, h3, h4⟩
    exact ⟨fp.attr, hi, mem_innerRows.2 ⟨hmem, h1, rfl, h3, h4⟩⟩

theorem innerRows_length_le (train : List TrainingRecord) (numAttrs : Nat) (s : ℚ)
    (rec : ClassifyRecord) (c : Int) (i : Nat) :
    (innerRows train numAttrs s rec c i).length ≤ 1 := by
  cases hv : attrVal rec.attrs i with
  | none =>
    have hnil : innerRows train numAttrs s rec c i = [] := by
      rw [innerRows, List.filter_eq_nil_iff]
      intro fp hfp
      rw [hv]
      simp [sqlEq_none]
    rw [hnil]
    exact Nat.zero_le 1
  | some a =>
    rw [innerRows, ← List.countP_eq_length_filter]
    have hmono : (featureProbs train numAttrs).countP
          (fun fp => fp.cls == c && fp.attr == i && sqlEq fp.value (attrVal rec.attrs i)
            && (decide (0 < s) || decide (0 < fp.cnt)))
        ≤ (featureProbs train numAttrs).countP
          (fun fp => fp.cls == c && fp.attr == i && fp.value == some a) := by
      apply List.countP_mono_left
      intro fp hfp hpred
      simp only [Bool.and_eq_true, beq_iff_eq] at hpred ⊢
      obtain ⟨⟨⟨h1, h2⟩, h3⟩, h4⟩ := hpred
      rw [hv] at h3
      rcases sqlEq_iff.1 h3 with ⟨x, hx1, hx2⟩
      injection hx2 with hxa
      subst hxa
      exact ⟨⟨h1, h2⟩, hx1⟩
    refine le_trans hmono ?_
    rw [countP_featureProbs]
    split
    · exact le_refl 1
    · exact Nat.zero_le 1

theorem matchedRows_singletons {train : List TrainingRecord} {numAttrs : Nat} {s : ℚ}
    {rec : ClassifyRecord} {c : Int}
    (h : numAttrs ≤ (matchedRows train numAttrs s rec c).length) :
    ∀ i ∈ List.range' 1 numAttrs, (innerRows train numAttrs s rec c i).length = 1 := by
  apply nb_all_eq_one _ _ (fun i _ => innerRows_length_le train numAttrs s rec c i)
  rw [← nb_length_flatMap, List.length_range']
  exact h

/-! ### Claim C1 -/

/-- C1: for every classify record and every observed class whose group is
scorable (the first branch of `__get_keys_and_prob_values_sql` emits a
non-NULL log-probability), the computed value equals
`log10(ClassPrior(c).count / totalCount)` plus the sum over attribute
indices i = 1..numAttrs of `log10((FeatureCount(c,i,attr[i]) + s) /
(ClassPrior(c).count + s * AttributeCardinality(i)))`. -/
theorem scored_log_prob_eq_spec (train : List TrainingRecord) (numAttrs : Nat) (s : ℚ)
    (rec : ClassifyRecord) (p : ClassPriorRow) (v : ℝ)
    (hp : p ∈ classPriors train)
    (h : scoredRow train numAttrs s rec p = some (some v)) :
    v = specLogProb train numAttrs s rec p.cls := by
  by_cases he : (matchedRows train numAttrs s rec p.cls).isEmpty
  · rw [scoredRow, if_pos he] at h
    cases h
  · by_cases hlt : (matchedRows train numAttrs s rec p.cls).length < numAttrs
    · rw [scoredRow, if_neg he, if_pos hlt] at h
      injection h with h2
      cases h2
    · rw [scoredRow, if_neg he, if_neg hlt] at h
      injection h with h2
      injection h2 with h3
      have hones := matchedRows_singletons (le_of_not_lt hlt)
      obtain ⟨hc, hpe⟩ := mem_classPriors_eq hp
      rw [← h3, logProbVal, specLogProb]
      congr 1
      · rw [hpe]
      · rw [matchedRows, nb_sum_flatMap_map]
        apply congrArg List.sum
        apply List.map_congr_left
        intro i hi
        rcases List.length_eq_one.1 (hones i hi) with ⟨fpi, hfpi⟩
        rw [hfpi]
        simp only [List.map_cons, List.map_nil, List.sum_cons, List.sum_nil, add_zero]
        have hmemi : fpi ∈ innerRows train numAttrs s rec p.cls i := by
          rw [hfpi]
          exact List.mem_singleton.2 rfl
        rcases mem_innerRows.1 hmemi with ⟨hfmem, h1, h2, h3v, h4⟩
        rcases sqlEq_iff.1 h3v with ⟨a, hva1, hva2⟩
        rcases mem_featureProbs.1 hfmem with ⟨_, _, hcnt, hacnt⟩
        have hccnt : p.class_cnt = classCnt train p.cls := by rw [hpe]
        rw [hcnt, hacnt, h1, h2, hva1, lookupCnt_eq_tripleCnt hi, ← hva2, hccnt]

/-- The training set of the specification's concrete scenario:
records (class=1, [1,1]), (class=1, [1,2]), (class=0, [2,1]). -/
def exTrain : List TrainingRecord := [⟨1, [1, 1]⟩, ⟨1, [1, 2]⟩, ⟨0, [2, 1]⟩]

/-- A classify record with key 7 and attribute array [1, 1]. -/
def exRec : ClassifyRecord := ⟨7, [1, 1]⟩

/-- Witness for C1 at the concrete scenario: class 1 is scorable for the
record [1,1] and the computed value coincides with the reference formula. -/
theorem scored_log_prob_eq_spec_witness :
    scoredRow exTrain 2 1 exRec ⟨1, 2, 3⟩
        = some (some (logProbVal ⟨1, 2, 3⟩ 1 (matchedRows exTrain 2 1 exRec 1)))
      ∧ logProbVal ⟨1, 2, 3⟩ 1 (matchedRows exTrain 2 1 exRec 1)
        = specLogProb exTrain 2 1 exRec 1 :=
  ⟨by rfl, scored_log_prob_eq_spec exTrain 2 1 exRec ⟨1, 2, 3⟩ _ (by decide) (by rfl)⟩

/-! ### Claim C2 -/

/-- C2: the feature-probabilities dataset contains exactly one row for
every triple (c, i, a) where c is an observed class, i is in 1..numAttrs
and a is a value observed for attribute i anywhere in the training set
(across all classes); the cnt field of such a row is the number of
training records with class c and attribute i equal to a, so it is 0
(rather than the row being absent) when the combination never occurs. -/
theorem feature_probs_required_triples (train : List TrainingRecord) (numAttrs : Nat)
    (c : Int) (i : Nat) (a : Int) :
    ((featureProbs train numAttrs).countP
        fun fp => fp.cls == c && fp.attr == i && fp.value == some a)
      = (if (∃ r ∈ train, r.cls = c) ∧ (1 ≤ i ∧ i ≤ numAttrs)
            ∧ (∃ r ∈ train, attrVal r.attrs i = some a) then 1 else 0)
    ∧ ∀ fp ∈ featureProbs train numAttrs,
        fp.cls = c → fp.attr = i → fp.value = some a →
          fp.cnt = train.countP fun r => r.cls == c && attrVal r.attrs i == some a := by
  constructor
  · rw [countP_featureProbs]
    apply if_congr _ rfl rfl
    rw [mem_classes, mem_attrValues, List.mem_range'_1]
    constructor
    · rintro ⟨h1, ⟨h2a, h2b⟩, h3⟩
      exact ⟨h1, ⟨h2a, by omega⟩, h3⟩
    · rintro ⟨h1, ⟨h2a, h2b⟩, h3⟩
      exact ⟨h1, ⟨h2a, by omega⟩, h3⟩
  · intro fp hfp h1 h2 h3
    rcases mem_featureProbs.1 hfp with ⟨hc, hav, hcnt, hacnt⟩
    rw [h2, h3] at hav
    have hi : i ∈ List.range' 1 numAttrs := (mem_attrValues.1 hav).1
    rw [hcnt, h1, h2, h3, lookupCnt_eq_tripleCnt hi]
    rfl

/-- Witness for C2 at the concrete scenario: class 0 never co-occurs with
value 1 of attribute 1, yet exactly one row for that triple is present and
carries count 0. -/
theorem feature_probs_required_triples_witness :
    ((featureProbs exTrain 2).countP
        fun fp => fp.cls == 0 && fp.attr == 1 && fp.value == some 1) = 1
      ∧ (⟨0, 1, some 1, 0, 2⟩ : FeatureProbRow) ∈ featureProbs exTrain 2 :=
  ⟨by rw [(feature_probs_required_triples exTrain 2 0 1 1).1]; decide, by decide⟩

/-! ### The keys-and-prob-values relation: claims C3 and C10 -/

theorem nb_key_inj {classify : List ClassifyRecord}
    (hk : (classify.map ClassifyRecord.key).Nodup)
    {r1 r2 : ClassifyRecord} (h1 : r1 ∈ classify) (h2 : r2 ∈ classify)
    (he : r1.key = r2.key) : r1 = r2 := by
  induction classify with
  | nil => cases h1
  | cons x xs ih =>
    rw [List.map_cons, List.nodup_cons] at hk
    rcases List.mem_cons.1 h1 with he1 | hm1
    · rcases List.mem_cons.1 h2 with he2 | hm2
      · rw [he1, he2]
      · exfalso
        apply hk.1
        rw [he1] at he
        rw [he]
        exact List.mem_map_of_mem ClassifyRecord.key hm2
    · rcases List.mem_cons.1 h2 with he2 | hm2
      · exfalso
        apply hk.1
        rw [he2] at he
        rw [← he]
        exact List.mem_map_of_mem ClassifyRecord.key hm1
      · exact ih hk.2 hm1 hm2

theorem none_mem_groupVals (train : List TrainingRecord) (numAttrs : Nat) (s : ℚ)
    (rec : ClassifyRecord) (p : ClassPriorRow) :
    none ∈ groupVals train numAttrs s rec p := by
  rw [groupVals]
  rcases scoredRow train numAttrs s rec p with _ | (_ | v)
  · exact List.mem_singleton.2 rfl
  · exact List.mem_singleton.2 rfl
  · exact List.mem_cons_of_mem _ (List.mem_singleton.2 rfl)

theorem some_mem_groupVals_iff (train : List TrainingRecord) (numAttrs : Nat) (s : ℚ)
    (rec : ClassifyRecord) (p : ClassPriorRow) {v : ℝ} :
    some v ∈ groupVals train numAttrs s rec p ↔
      scoredRow train numAttrs s rec p = some (some v) := by
  rw [groupVals]
  rcases hsr : scoredRow train numAttrs s rec p with _ | (_ | w)
  · simp
  · simp
  · constructor
    · intro hm
      rcases List.mem_cons.1 hm with he | hm2
      · injection he with hvw
        rw [hvw]
      · rcases List.mem_cons.1 hm2 with he2 | hm3
        · cases he2
        · cases hm3
    · intro he
      injection he with he2
      injection he2 with he3
      rw [he3]
      exact List.mem_cons_self _ _

/-- C3: for every classify record and every observed class, the pair
appears in the output of `__get_keys_and_prob_values_sql` with a NULL row
unconditionally, and a non-NULL log-probability row exists for the pair
exactly when at least numAttrs matching feature-probability rows were
found for it, so a NULL-only pair marks exactly the unscorable case. -/
theorem kapv_full_cross_product (train : List TrainingRecord) (numAttrs : Nat) (s : ℚ)
    (classify : List ClassifyRecord) (rec : ClassifyRecord) (p : ClassPriorRow)
    (hN : 1 ≤ numAttrs)
    (hk : (classify.map ClassifyRecord.key).Nodup)
    (hrec : rec ∈ classify) (hp : p ∈ classPriors train) :
    InKeysAndProbValues train numAttrs s classify rec.key p.cls none
    ∧ ((∃ v : ℝ, InKeysAndProbValues train numAttrs s classify rec.key p.cls (some v))
        ↔ numAttrs ≤ (matchedRows train numAttrs s rec p.cls).length) := by
  constructor
  · exact ⟨rec, hrec, rfl, p, hp, rfl, none_mem_groupVals train numAttrs s rec p⟩
  · constructor
    · rintro ⟨v, rec2, hrec2, hkey, p2, hp2, hcls, hvmem⟩
      have hre : rec2 = rec := nb_key_inj hk hrec2 hrec hkey
      subst hre
      have hpe : p2 = p := classPriors_unique hp2 hp hcls
      subst hpe
      have hsr := (some_mem_groupVals_iff train numAttrs s rec2 p2).1 hvmem
      by_cases he : (matchedRows train numAttrs s rec2 p2.cls).isEmpty
      · rw [scoredRow, if_pos he] at hsr
        cases hsr
      · by_cases hlt : (matchedRows train numAttrs s rec2 p2.cls).length < numAttrs
        · rw [scoredRow, if_neg he, if_pos hlt] at hsr
          injection hsr with hsr2
          cases hsr2
        · exact le_of_not_lt hlt
    · intro hlen
      have hne : ¬(matchedRows train numAttrs s rec p.cls).isEmpty = true := by
        intro hemp
        rw [List.isEmpty_iff] at hemp
        rw [hemp] at hlen
        simp only [List.length_nil] at hlen
        omega
      refine ⟨logProbVal p s (matchedRows train numAttrs s rec p.cls),
        rec, hrec, rfl, p, hp, rfl, ?_⟩
      rw [some_mem_groupVals_iff, scoredRow, if_neg hne, if_neg (not_lt.2 hlen)]

/-- Witness for C3 at the concrete scenario: the record [1,1] with the
class-1 prior row of the example training set. -/
theorem kapv_full_cross_product_witness :
    InKeysAndProbValues exTrain 2 1 [exRec] 7 1 none
    ∧ ((∃ v : ℝ, InKeysAndProbValues exTrain 2 1 [exRec] 7 1 (some v))
        ↔ 2 ≤ (matchedRows exTrain 2 1 exRec 1).length) :=
  kapv_full_cross_product exTrain 2 1 [exRec] exRec ⟨1, 2, 3⟩
    (by decide) (by decide) (by decide) (by decide)

/-- C10: the relation built by `__get_keys_and_prob_values_sql` holds a
NULL row for every (key, observed class) pair unconditionally, so a
scorable pair is represented by two distinct rows; the per-(key, class)
`max(log_prob)` aggregation of `create_bayes_probabilities` ignores the
NULL row and recovers exactly the scored value. -/
theorem kapv_null_row_and_max (train : List TrainingRecord) (numAttrs : Nat) (s : ℚ)
    (classify : List ClassifyRecord) (rec : ClassifyRecord) (p : ClassPriorRow)
    (hrec : rec ∈ classify) (hp : p ∈ classPriors train) :
    InKeysAndProbValues train numAttrs s classify rec.key p.cls none
    ∧ ∀ v : ℝ, scoredRow train numAttrs s rec p = some (some v) →
        InKeysAndProbValues train numAttrs s classify rec.key p.cls (some v)
        ∧ groupVals train numAttrs s rec p = [some v, none]
        ∧ classMaxLogProb train numAttrs s rec p = some v := by
  constructor
  · exact ⟨rec, hrec, rfl, p, hp, rfl, none_mem_groupVals train numAttrs s rec p⟩
  · intro v hv
    have hgv : groupVals train numAttrs s rec p = [some v, none] := by
      rw [groupVals, hv]
    refine ⟨⟨rec, hrec, rfl, p, hp, rfl, ?_⟩, hgv, ?_⟩
    · rw [hgv]
      exact List.mem_cons_self _ _
    · rw [classMaxLogProb, hgv, nullMax]
      rfl

/-- Witness for C10 at the concrete scenario: class 1 is scorable for the
record [1,1], yielding both the NULL row and the scored row, whose
null-ignoring maximum is the scored value. -/
theorem kapv_null_row_and_max_witness :
    InKeysAndProbValues exTrain 2 1 [exRec] 7 1 none
    ∧ (InKeysAndProbValues exTrain 2 1 [exRec] 7 1
          (some (logProbVal ⟨1, 2, 3⟩ 1 (matchedRows exTrain 2 1 exRec 1)))
        ∧ groupVals exTrain 2 1 exRec ⟨1, 2, 3⟩
          = [some (logProbVal ⟨1, 2, 3⟩ 1 (matchedRows exTrain 2 1 exRec 1)), none]
        ∧ classMaxLogProb exTrain 2 1 exRec ⟨1, 2, 3⟩
          = some (logProbVal ⟨1, 2, 3⟩ 1 (matchedRows exTrain 2 1 exRec 1))) :=
  ⟨(kapv_null_row_and_max exTrain 2 1 [exRec] exRec ⟨1, 2, 3⟩ (by decide) (by decide)).1,
    (kapv_null_row_and_max exTrain 2 1 [exRec] exRec ⟨1, 2, 3⟩ (by decide) (by decide)).2
      (logProbVal ⟨1, 2, 3⟩ 1 (matchedRows exTrain 2 1 exRec 1)) (by rfl)⟩

/-! ### Claim C4 -/

theorem nb_sum_map_div (l : List ℝ) (r : ℝ) :
    (l.map fun x => x / r).sum = l.sum / r := by
  induction l with
  | nil => simp
  | cons x xs ih => simp [ih, add_div]

/-- C4: the normalized probabilities of `create_bayes_probabilities`
(per-key max subtracted, exponentiated base 10, floored to 0 below -300,
divided by the per-key sum) sum to 1 over all classes for any key having
at least one scorable class: the maximum class is never floored, so the
normalizing sum is at least 1, and NULL rows contribute nothing. -/
theorem nb_prob_sums_to_one (train : List TrainingRecord) (numAttrs : Nat) (s : ℚ)
    (rec : ClassifyRecord)
    (h : ∃ p ∈ classPriors train, (classMaxLogProb train numAttrs s rec p).isSome) :
    ((classPriors train).filterMap fun p => nbProb train numAttrs s rec p).sum = 1 := by
  classical
  set L := (classPriors train).filterMap fun p =>
    classMaxLogProb train numAttrs s rec p with hL
  have hLne : L ≠ [] := by
    rcases h with ⟨p, hp, hsome⟩
    rcases Option.isSome_iff_exists.1 hsome with ⟨m, hm⟩
    intro hnil
    have hmm : m ∈ L := List.mem_filterMap.2 ⟨p, hp, hm⟩
    rw [hnil] at hmm
    cases hmm
  have hkM : ∃ M, keyMaxLogProb train numAttrs s rec = some M := by
    cases hmax : listMax L with
    | none => exact absurd (listMax_eq_none_iff.1 hmax) hLne
    | some M =>
      refine ⟨M, ?_⟩
      rw [keyMaxLogProb, ← hL, hmax]
  rcases hkM with ⟨M, hM⟩
  have hMmem : M ∈ L := by
    apply listMax_mem
    rw [keyMaxLogProb, ← hL] at hM
    exact hM
  rcases List.mem_filterMap.1 hMmem with ⟨p0, hp0, hp0M⟩
  have hp0raw : nbProbRaw train numAttrs s rec p0 = some 1 := by
    rw [nbProbRaw, hp0M, hM]
    show some (if M - M < -300 then 0 else (10:ℝ) ^ (M - M)) = some 1
    rw [sub_self]
    rw [if_neg (by norm_num : ¬((0:ℝ) < -300))]
    rw [Real.rpow_zero]
  set R := (classPriors train).filterMap fun p =>
    nbProbRaw train numAttrs s rec p with hR
  have h1R : (1:ℝ) ∈ R := List.mem_filterMap.2 ⟨p0, hp0, hp0raw⟩
  have hnonneg : ∀ x ∈ R, (0:ℝ) ≤ x := by
    intro x hx
    rcases List.mem_filterMap.1 hx with ⟨p, hp, hpx⟩
    cases hcm : classMaxLogProb train numAttrs s rec p with
    | none =>
      rw [nbProbRaw, hcm] at hpx
      cases hpx
    | some m =>
      cases hkm : keyMaxLogProb train numAttrs s rec with
      | none =>
        rw [nbProbRaw, hcm, hkm] at hpx
        cases hpx
      | some M2 =>
        rw [nbProbRaw, hcm, hkm] at hpx
        injection hpx with hpx2
        rw [← hpx2]
        by_cases hlt : m - M2 < -300
        · rw [if_pos hlt]
        · rw [if_neg hlt]
          exact le_of_lt (Real.rpow_pos_of_pos (by norm_num) _)
  have hSge : (1:ℝ) ≤ R.sum := List.single_le_sum hnonneg 1 h1R
  have hSne : R.sum ≠ 0 := by
    intro h0
    rw [h0] at hSge
    linarith
  have hmap : ((classPriors train).filterMap fun p => nbProb train numAttrs s rec p)
      = R.map fun x => x / nbProbSum train numAttrs s rec := by
    rw [hR, List.map_filterMap]
    rfl
  have hnps : nbProbSum train numAttrs s rec = R.sum := by
    rw [nbProbSum, ← hR]
  rw [hmap, nb_sum_map_div, hnps]
  exact div_self hSne

/-- Witness for C4 at the concrete scenario: class 1 is scorable for the
record [1,1], and the normalized probabilities over both classes sum to 1. -/
theorem nb_prob_sums_to_one_witness :
    (∃ p ∈ classPriors exTrain, (classMaxLogProb exTrain 2 1 exRec p).isSome)
    ∧ ((classPriors exTrain).filterMap fun p => nbProb exTrain 2 1 exRec p).sum = 1 :=
  ⟨⟨⟨1, 2, 3⟩, by decide, by rfl⟩,
    nb_prob_sums_to_one exTrain 2 1 exRec ⟨⟨1, 2, 3⟩, by decide, by rfl⟩⟩

/-! ### Claims C7 and C8: the smoothed estimate -/

/-- C7: with at least one record for the class and at least one observed
value for the attribute, the smoothed probability is strictly positive for
every s > 0; for s = 0 it is zero exactly when the feature count is 0. -/
theorem smoothedProb_pos_and_zero_iff (F C K : ℕ) (s : ℚ)
    (hC : 1 ≤ C) (hK : 1 ≤ K) :
    (0 < s → 0 < smoothedProb F C K s)
    ∧ (s = 0 → (smoothedProb F C K s = 0 ↔ F = 0)) := by
  have hCq : (1:ℚ) ≤ (C:ℚ) := by exact_mod_cast hC
  constructor
  · intro hs
    apply div_pos
    · have hF : (0:ℚ) ≤ (F:ℚ) := Nat.cast_nonneg F
      linarith
    · have hKq : (0:ℚ) ≤ (K:ℚ) := Nat.cast_nonneg K
      have hsK : (0:ℚ) ≤ s * K := mul_nonneg (le_of_lt hs) hKq
      linarith
  · intro hs
    subst hs
    rw [smoothedProb]
    simp only [add_zero, zero_mul]
    rw [div_eq_zero_iff]
    constructor
    · rintro (h | h)
      · exact_mod_cast h
      · exfalso
        rw [h] at hCq
        linarith
    · intro h
      left
      exact_mod_cast h

/-- Witness for C7 at F = 0, C = 1, K = 1. -/
theorem smoothedProb_pos_and_zero_iff_witness :
    ((0:ℚ) < 1 → 0 < smoothedProb 0 1 1 1)
    ∧ ((1:ℚ) = 0 → (smoothedProb 0 1 1 1 = 0 ↔ (0:ℕ) = 0)) :=
  smoothedProb_pos_and_zero_iff 0 1 1 1 (le_refl 1) (le_refl 1)

/-- C8: increasing the smoothing factor moves the smoothed estimate
monotonically toward the uniform value 1/K: for 0 ≤ s1 ≤ s2 the absolute
distance of the estimate to 1/K at s2 is at most the distance at s1. -/
theorem smoothedProb_monotone_to_uniform (F C K : ℕ) (s1 s2 : ℚ)
    (hC : 1 ≤ C) (hK : 1 ≤ K) (h0 : 0 ≤ s1) (h12 : s1 ≤ s2) :
    |smoothedProb F C K s2 - 1 / (K:ℚ)| ≤ |smoothedProb F C K s1 - 1 / (K:ℚ)| := by
  have hCq : (1:ℚ) ≤ (C:ℚ) := by exact_mod_cast hC
  have hKq : (1:ℚ) ≤ (K:ℚ) := by exact_mod_cast hK
  have hKpos : (0:ℚ) < K := by linarith
  have hKne : (K:ℚ) ≠ 0 := ne_of_gt hKpos
  have hd1 : (0:ℚ) < (C:ℚ) + s1 * K := by nlinarith
  have hd2 : (0:ℚ) < (C:ℚ) + s2 * K := by nlinarith
  have key : ∀ s : ℚ, (0:ℚ) < (C:ℚ) + s * K →
      smoothedProb F C K s - 1 / K = ((K:ℚ) * F - C) / (K * ((C:ℚ) + s * K)) := by
    intro s hd
    have hdne : ((C:ℚ) + s * K) ≠ 0 := ne_of_gt hd
    rw [smoothedProb]
    field_simp
    ring
  rw [key s1 hd1, key s2 hd2, abs_div, abs_div]
  rw [abs_of_pos (mul_pos hKpos hd1), abs_of_pos (mul_pos hKpos hd2)]
  apply div_le_div_of_nonneg_left (abs_nonneg _) (mul_pos hKpos hd1)
  apply mul_le_mul_of_nonneg_left _ (le_of_lt hKpos)
  nlinarith

/-- Witness for C8 at F = 0, C = 1, K = 1, s1 = 0, s2 = 1. -/
theorem smoothedProb_monotone_to_uniform_witness :
    |smoothedProb 0 1 1 1 - 1 / ((1:ℕ):ℚ)| ≤ |smoothedProb 0 1 1 0 - 1 / ((1:ℕ):ℚ)| :=
  smoothedProb_monotone_to_uniform 0 1 1 0 1 (le_refl 1) (le_refl 1)
    (le_refl 0) (by norm_num)

/-! ### Claim C6 -/

/-- C6: every row contributing to a (key, class) log-probability has a
strictly positive log argument and a nonzero denominator; its count field
is the feature count, and with s = 0 a zero-count row is excluded by the
`smoothingFactor > 0 OR featureProbs.cnt > 0` guard rather than evaluated. -/
theorem matched_rows_log_safe (train : List TrainingRecord) (numAttrs : Nat) (s : ℚ)
    (rec : ClassifyRecord) (p : ClassPriorRow)
    (hs : 0 ≤ s) (hp : p ∈ classPriors train) :
    ∀ fp ∈ matchedRows train numAttrs s rec p.cls,
      (s = 0 → 0 < fp.cnt)
      ∧ 0 < smoothedProb fp.cnt p.class_cnt fp.attr_cnt s
      ∧ ((p.class_cnt : ℚ) + s * (fp.attr_cnt : ℚ)) ≠ 0
      ∧ fp.cnt = tripleCnt train p.cls fp.attr fp.value := by
  intro fp hfp
  rcases mem_matchedRows.1 hfp with ⟨hfmem, h1, hi, h3, h4⟩
  obtain ⟨hc, hpe⟩ := mem_classPriors_eq hp
  have hccnt : 0 < p.class_cnt := by
    rw [hpe]
    exact classCnt_pos hc
  have hcq : (1:ℚ) ≤ (p.class_cnt : ℚ) := by exact_mod_cast hccnt
  have hdenpos : (0:ℚ) < (p.class_cnt : ℚ) + s * (fp.attr_cnt : ℚ) := by
    have hsk : (0:ℚ) ≤ s * (fp.attr_cnt : ℚ) := mul_nonneg hs (Nat.cast_nonneg _)
    linarith
  refine ⟨?_, ?_, ne_of_gt hdenpos, ?_⟩
  · intro hs0
    rcases h4 with h4a | h4b
    · rw [hs0] at h4a
      exact absurd h4a (lt_irrefl 0)
    · exact h4b
  · apply div_pos
    · rcases h4 with h4a | h4b
      · have hf : (0:ℚ) ≤ (fp.cnt:ℚ) := Nat.cast_nonneg _
        linarith
      · have hf : (1:ℚ) ≤ (fp.cnt:ℚ) := by exact_mod_cast h4b
        linarith
    · exact hdenpos
  · rcases mem_featureProbs.1 hfmem with ⟨_, hav, hcnt, _⟩
    rcases sqlEq_iff.1 h3 with ⟨a, hva1, hva2⟩
    rw [hcnt, h1, hva1, lookupCnt_eq_tripleCnt hi]

/-- Witness for C6 at the concrete scenario with s = 0: the class-1 row for
attribute 1, value 1 has count 2 > 0 and a positive, well-defined estimate. -/
theorem matched_rows_log_safe_witness :
    ((0:ℚ) = 0 → 0 < (⟨1, 1, some 1, 2, 2⟩ : FeatureProbRow).cnt)
    ∧ 0 < smoothedProb (⟨1, 1, some 1, 2, 2⟩ : FeatureProbRow).cnt
        (⟨1, 2, 3⟩ : ClassPriorRow).class_cnt
        (⟨1, 1, some 1, 2, 2⟩ : FeatureProbRow).attr_cnt 0
    ∧ (((⟨1, 2, 3⟩ : ClassPriorRow).class_cnt : ℚ)
        + 0 * ((⟨1, 1, some 1, 2, 2⟩ : FeatureProbRow).attr_cnt : ℚ)) ≠ 0
    ∧ (⟨1, 1, some 1, 2, 2⟩ : FeatureProbRow).cnt
        = tripleCnt exTrain (⟨1, 2, 3⟩ : ClassPriorRow).cls
            (⟨1, 1, some 1, 2, 2⟩ : FeatureProbRow).attr
            (⟨1, 1, some 1, 2, 2⟩ : FeatureProbRow).value :=
  matched_rows_log_safe exTrain 2 0 exRec ⟨1, 2, 3⟩ (le_refl 0) (by decide)
    ⟨1, 1, some 1, 2, 2⟩ (by decide)

/-! ### Claim C5 -/

/-- C5 counterexample: on an empty training set `create_prepared_data`
does not fail; it materializes empty class-priors and
feature-probabilities relations. -/
theorem create_prepared_data_empty_counterexample :
    createPreparedData [] 2 = ([], []) := rfl

/-- C5 amended: for an empty training set the fit step succeeds and
produces empty statistics datasets; `create_prepared_data` contains no
emptiness check and no error path. -/
theorem create_prepared_data_empty (numAttrs : Nat) :
    createPreparedData [] numAttrs = ([], []) := rfl

/-! ### Claim C9 -/

/-- C9: on the scenario training set {(1,[1,1]), (1,[1,2]), (0,[2,1])}
with numAttrs = 2 and s = 1, the fit step yields class priors 2 and 1 out
of 3 and attribute cardinalities 2 and 2, and scoring the record [1,1]
gives class 1 a strictly greater log-probability than class 0. -/
theorem scenario_class1_beats_class0 :
    classPriors exTrain = [⟨1, 2, 3⟩, ⟨0, 1, 3⟩]
    ∧ attrCard exTrain 1 = 2 ∧ attrCard exTrain 2 = 2
    ∧ ∃ v1 v0 : ℝ,
        scoredRow exTrain 2 1 exRec ⟨1, 2, 3⟩ = some (some v1)
        ∧ scoredRow exTrain 2 1 exRec ⟨0, 1, 3⟩ = some (some v0)
        ∧ v0 < v1 := by
  have hr1 : matchedRows exTrain 2 1 exRec 1
      = [⟨1, 1, some 1, 2, 2⟩, ⟨1, 2, some 1, 1, 2⟩] := by decide
  have hr0 : matchedRows exTrain 2 1 exRec 0
      = [⟨0, 1, some 1, 0, 2⟩, ⟨0, 2, some 1, 1, 2⟩] := by decide
  have e11 : ((smoothedProb 2 2 2 1 : ℚ) : ℝ) = 3/4 := by
    rw [smoothedProb]
    push_cast
    norm_num
  have e12 : ((smoothedProb 1 2 2 1 : ℚ) : ℝ) = 1/2 := by
    rw [smoothedProb]
    push_cast
    norm_num
  have e01 : ((smoothedProb 0 1 2 1 : ℚ) : ℝ) = 1/3 := by
    rw [smoothedProb]
    push_cast
    norm_num
  have e02 : ((smoothedProb 1 1 2 1 : ℚ) : ℝ) = 2/3 := by
    rw [smoothedProb]
    push_cast
    norm_num
  have hv1 : logProbVal ⟨1, 2, 3⟩ 1 (matchedRows exTrain 2 1 exRec 1)
      = Real.logb 10 ((2/3) * ((3/4) * (1/2))) := by
    rw [hr1, logProbVal]
    show Real.logb 10 (((2:ℕ):ℝ) / ((3:ℕ):ℝ))
        + (Real.logb 10 ((smoothedProb 2 2 2 1 : ℚ) : ℝ)
          + (Real.logb 10 ((smoothedProb 1 2 2 1 : ℚ) : ℝ) + 0)) = _
    rw [e11, e12, add_zero]
    push_cast
    rw [← Real.logb_mul (by norm_num : ((3:ℝ)/4) ≠ 0) (by norm_num : ((1:ℝ)/2) ≠ 0),
      ← Real.logb_mul (by norm_num : ((2:ℝ)/3) ≠ 0)
        (by norm_num : ((3:ℝ)/4 * (1/2)) ≠ 0)]
  have hv0 : logProbVal ⟨0, 1, 3⟩ 1 (matchedRows exTrain 2 1 exRec 0)
      = Real.logb 10 ((1/3) * ((1/3) * (2/3))) := by
    rw [hr0, logProbVal]
    show Real.logb 10 (((1:ℕ):ℝ) / ((3:ℕ):ℝ))
        + (Real.logb 10 ((smoothedProb 0 1 2 1 : ℚ) : ℝ)
          + (Real.logb 10 ((smoothedProb 1 1 2 1 : ℚ) : ℝ) + 0)) = _
    rw [e01, e02, add_zero]
    push_cast
    rw [← Real.logb_mul (by norm_num : ((1:ℝ)/3) ≠ 0) (by norm_num : ((2:ℝ)/3) ≠ 0),
      ← Real.logb_mul (by norm_num : ((1:ℝ)/3) ≠ 0)
        (by norm_num : ((1:ℝ)/3 * (2/3)) ≠ 0)]
  refine ⟨by decide, by decide, by decide,
    logProbVal ⟨1, 2, 3⟩ 1 (matchedRows exTrain 2 1 exRec 1),
    logProbVal ⟨0, 1, 3⟩ 1 (matchedRows exTrain 2 1 exRec 0),
    by rfl, by rfl, ?_⟩
  rw [hv0, hv1]
  exact Real.logb_lt_logb (by norm_num) (by norm_num) (by norm_num)
